import Mathlib

set_option maxHeartbeats 1000000
set_option linter.unusedVariables false

/-! Verification of the `place` module of the egg-mode Twitter client
    (`src/place/mod.rs`): the value types `Place`, `PlaceType`, `Accuracy` and
    `SearchResult`, the custom JSON codec adapters (`SearchResult::deserialize`
    and the `serde_bounding_box` module), and the `GeocodeBuilder` /
    `SearchBuilder` parameter assembly. -/

/-- Nonempty digit string: one leading digit followed by further digits. -/
structure DecDigits where
  first : Fin 10
  rest : List (Fin 10)
deriving DecidableEq

/-- Decimal rendering of a finite Rust `f64` as produced by its `Display`
    implementation: an optional minus sign, a nonempty run of integer digits
    and an optional nonempty fraction.  Rust's `Display` for finite doubles
    always has this shape (it never prints an exponent or a plus sign). -/
structure DecRepr where
  neg : Bool
  intPart : DecDigits
  fracPart : Option DecDigits
deriving DecidableEq

/-- Model of a Rust `f64` through its observable `Display` behaviour: finite
    values carry the decimal digit string their rendering produces, and the
    special values NaN and the two infinities are explicit (Rust prints them
    as `NaN`, `inf` and `-inf`). -/
inductive F64 where
  | finite (r : DecRepr)
  | nan
  | inf (neg : Bool)
deriving DecidableEq

/-- The ASCII digit character for a decimal digit. -/
def digitChar (d : Fin 10) : Char := Char.ofNat (48 + d.val)

/-- Character rendering of a digit run. -/
def DecDigits.chars (d : DecDigits) : List Char :=
  digitChar d.first :: d.rest.map digitChar

/-- Character rendering of a finite double. -/
def DecRepr.chars (r : DecRepr) : List Char :=
  (if r.neg then ['-'] else []) ++ r.intPart.chars ++
    (match r.fracPart with
     | none => []
     | some f => '.' :: f.chars)

/-- Rust `f64` `Display` / `ToString` output. -/
def F64.display : F64 → String
  | .finite r => ⟨r.chars⟩
  | .nan => "NaN"
  | .inf false => "inf"
  | .inf true => "-inf"

/-- JSON values, modelling `serde_json::Value`.  Numbers are modelled by
    `F64`; objects are association lists looked up on the first match
    (`serde_json` maps hold unique keys, so the distinction is invisible). -/
inductive Json where
  | null
  | bool (b : Bool)
  | num (x : F64)
  | str (s : String)
  | arr (elems : List Json)
  | obj (fields : List (String × Json))

/-- Hexadecimal digit character (lowercase), for JSON string escapes. -/
def hexDigitChar (n : Nat) : Char :=
  if n < 10 then Char.ofNat (48 + n) else Char.ofNat (87 + n)

/-- JSON string escaping of one character, following `serde_json`: quote and
    backslash get a backslash escape, control characters get their short
    escape or a `\u00xx` escape, and everything else passes through. -/
def escapeChar (c : Char) : String :=
  if c = '"' then "\\\""
  else if c = '\\' then "\\\\"
  else if c.toNat < 32 then
    if c.toNat = 8 then "\\b"
    else if c.toNat = 9 then "\\t"
    else if c.toNat = 10 then "\\n"
    else if c.toNat = 12 then "\\f"
    else if c.toNat = 13 then "\\r"
    else "\\u00" ++ ⟨[hexDigitChar (c.toNat / 16), hexDigitChar (c.toNat % 16)]⟩
  else String.singleton c

/-- JSON rendering of a string, quotes included. -/
def jsonEscape (s : String) : String :=
  "\"" ++ String.join (s.data.map escapeChar) ++ "\""

mutual

/-- Compact JSON rendering, modelling `serde_json::Value::to_string`. -/
def Json.render : Json → String
  | .null => "null"
  | .bool b => if b then "true" else "false"
  | .num x => x.display
  | .str s => jsonEscape s
  | .arr elems => "[" ++ Json.renderArr elems ++ "]"
  | .obj fields => "\x7b" ++ Json.renderObj fields ++ "\x7d"

/-- Comma-separated rendering of array elements. -/
def Json.renderArr : List Json → String
  | [] => ""
  | [x] => x.render
  | x :: y :: rest => x.render ++ "," ++ Json.renderArr (y :: rest)

/-- Comma-separated rendering of object members. -/
def Json.renderObj : List (String × Json) → String
  | [] => ""
  | [(k, v)] => jsonEscape k ++ ":" ++ v.render
  | (k, v) :: y :: rest => jsonEscape k ++ ":" ++ v.render ++ "," ++ Json.renderObj (y :: rest)

end

/-- First-match lookup in a JSON object's member list, modelling indexing a
    `serde_json::Map` by a string key. -/
def lookupField : List (String × Json) → String → Option Json
  | [], _ => none
  | (k, v) :: rest, key => if k = key then some v else lookupField rest key

/-- Model of `serde_json::Value::get` with a string index: member lookup on
    objects, `None` on every other value. -/
def Json.getField : Json → String → Option Json
  | .obj fields, key => lookupField fields key
  | _, _ => none

/-- Model of `serde_json::Value::get` with a `usize` index: element lookup on
    arrays, `None` on every other value. -/
def Json.getIdx : Json → Nat → Option Json
  | .arr elems, i => elems.get? i
  | _, _ => none

/-- Checks for the JSON `null` value, modelling `serde_json::Value::is_null`. -/
def Json.isNull : Json → Bool
  | .null => true
  | _ => false

/-- The place-type enumeration of `place/mod.rs`. -/
inductive PlaceType where
  | PointOfInterest
  | Neighborhood
  | City
  | Admin
  | Country
deriving DecidableEq

/-- Wire tag of a place type, the single source of the serde rename table. -/
def PlaceType.tag : PlaceType → String
  | .PointOfInterest => "poi"
  | .Neighborhood => "neighborhood"
  | .City => "city"
  | .Admin => "admin"
  | .Country => "country"

/-- Serde serialization of `PlaceType`: the wire tag as a JSON string. -/
def PlaceType.toJson (p : PlaceType) : Json := Json.str p.tag

/-- The serde field-identifier step: maps a variant tag to its `PlaceType`;
    exactly the five renamed tags are accepted. -/
def PlaceType.fromTag (s : String) : Option PlaceType :=
  if s = "poi" then some .PointOfInterest
  else if s = "neighborhood" then some .Neighborhood
  else if s = "city" then some .City
  else if s = "admin" then some .Admin
  else if s = "country" then some .Country
  else none

/-- Serde deserialization of `PlaceType`: `serde_json` decodes a unit enum
    variant either from its tag string, or from the externally-tagged
    single-member object form whose member value must decode as the unit
    type, i.e. be `null` (so both `"poi"` and `\x7b"poi": null\x7d` decode
    to `PointOfInterest`); an unknown tag, a non-null member value, an
    object with zero or several members, or any other JSON value is a
    decode error. -/
def PlaceType.fromJson : Json → Option PlaceType
  | Json.str s => PlaceType.fromTag s
  | Json.obj [(s, v)] =>
    (PlaceType.fromTag s).bind fun p => if v.isNull then some p else none
  | _ => none

/-- Drops the first and last character of a string, modelling the byte slice
    `&quoted[1..quoted.len() - 1]` (the sliced strings here are ASCII, so
    byte and character indexing agree). -/
def stripEnds (s : String) : String := ⟨(s.data.drop 1).dropLast⟩

/-- The `Display` implementation for `PlaceType`: serialize to a JSON string
    with `serde_json::to_string` and strip the surrounding quote marks. -/
def PlaceType.display (p : PlaceType) : String :=
  stripEnds (Json.render p.toJson)

/-- The `Accuracy` request-side value: a distance in meters or in feet. -/
inductive Accuracy where
  | Meters (dist : F64)
  | Feet (dist : F64)
deriving DecidableEq

/-- The `Display` implementation for `Accuracy`: `Meters` is the bare number,
    `Feet` is the number suffixed with `ft`. -/
def Accuracy.display : Accuracy → String
  | .Meters dist => dist.display
  | .Feet dist => dist.display ++ "ft"

/-- Strips one leading `+` or `-` sign, the `[+-]?` part of the spec regex. -/
def stripSign : List Char → List Char
  | [] => []
  | c :: rest => if c = '+' ∨ c = '-' then rest else c :: rest

/-- Decides whether a character list matches the spec's accuracy regular
    expression `[+-]?\d+(\.\d+)?(ft)?` anchored at both ends. -/
def accuracyRegexChars (cs0 : List Char) : Bool :=
  let cs := stripSign cs0
  let d1 := cs.takeWhile Char.isDigit
  let r1 := cs.dropWhile Char.isDigit
  if d1.isEmpty then false
  else
    match r1 with
    | '.' :: r2 =>
      let d2 := r2.takeWhile Char.isDigit
      let r3 := r2.dropWhile Char.isDigit
      if d2.isEmpty then false else decide (r3 = [] ∨ r3 = ['f', 't'])
    | r => decide (r = [] ∨ r = ['f', 't'])

/-- String form of the regex decision. -/
def accuracyRegexMatch (s : String) : Bool := accuracyRegexChars s.data

/-- Modelled from the spec: the crate's private `common` module (not under
    `src/`) provides `ParamList`, described by the spec as the assembled list
    of query parameters, each a name/value pair.  It is modelled as the list
    of emitted parameters in assembly order; the names assembled by this
    module are pairwise distinct, so any map representation agrees. -/
abbrev ParamList := List (String × String)

/-- Modelled from the spec: `ParamList::add_param` records one parameter. -/
def addParam (l : ParamList) (k v : String) : ParamList := l ++ [(k, v)]

/-- Modelled from the spec: `ParamList::add_opt_param` records the parameter
    when the optional value is present and is a no-op otherwise. -/
def addOptParam (l : ParamList) (k : String) (v : Option String) : ParamList :=
  match v with
  | some s => addParam l k s
  | none => l

/-- First-match lookup of an emitted parameter by name. -/
def lookupParam (key : String) : ParamList → Option String
  | [] => none
  | (k, v) :: rest => if k = key then some v else lookupParam key rest

/-- Number of emitted parameters carrying the given name. -/
def countKey (key : String) (l : ParamList) : Nat :=
  (l.filter fun p => p.1 = key).length

/-- The `GeocodeBuilder` configuration record: a mandatory coordinate and the
    three optional parameters. -/
structure GeocodeBuilder where
  coordinate : F64 × F64
  accuracy : Option Accuracy
  granularity : Option PlaceType
  max_results : Option Nat

/-- The `GeocodeBuilder::new` constructor. -/
def GeocodeBuilder.new (latitude longitude : F64) : GeocodeBuilder :=
  ⟨(latitude, longitude), none, none, none⟩

/-- The `GeocodeBuilder::accuracy` setter. -/
def GeocodeBuilder.setAccuracy (b : GeocodeBuilder) (accuracy : Accuracy) : GeocodeBuilder :=
  { b with accuracy := some accuracy }

/-- The `GeocodeBuilder::granularity` setter. -/
def GeocodeBuilder.setGranularity (b : GeocodeBuilder) (granularity : PlaceType) : GeocodeBuilder :=
  { b with granularity := some granularity }

/-- The `GeocodeBuilder::max_results` setter.  `u32` values are modelled as
    `Nat`; no arithmetic is performed on them, only comparison and decimal
    formatting, which agree on the `u32` range. -/
def GeocodeBuilder.setMaxResults (b : GeocodeBuilder) (max_results : Nat) : GeocodeBuilder :=
  { b with max_results := some max_results }

/-- The parameter assembly performed by `GeocodeBuilder::call` (the HTTP
    issue-and-decode step around it is outside this module's core). -/
def GeocodeBuilder.callParams (b : GeocodeBuilder) : ParamList :=
  let p := addParam [] "lat" (F64.display b.coordinate.1)
  let p := addParam p "long" (F64.display b.coordinate.2)
  let p := addOptParam p "accuracy" (Option.map Accuracy.display b.accuracy)
  let p := addOptParam p "granularity" (Option.map PlaceType.display b.granularity)
  addOptParam p "max_results"
    (Option.map (fun count => Nat.repr (if count = 0 ∨ 20 < count then 20 else count))
      b.max_results)

/-- The private discriminated query of `SearchBuilder`. -/
inductive PlaceQuery where
  | LatLon (lat long : F64)
  | Query (text : String)
  | IPAddress (text : String)

/-- The `SearchBuilder` configuration record.  The `attributes` map (a Rust
    `HashMap<String, String>`) is modelled as an association list with unique
    keys; `hmInsert` below models `HashMap::insert`. -/
structure SearchBuilder where
  query : PlaceQuery
  accuracy : Option Accuracy
  granularity : Option PlaceType
  max_results : Option Nat
  contained_within : Option String
  attributes : Option (List (String × String))

/-- The `SearchBuilder::new` constructor. -/
def SearchBuilder.new (query : PlaceQuery) : SearchBuilder :=
  ⟨query, none, none, none, none, none⟩

/-- The `SearchBuilder::accuracy` setter. -/
def SearchBuilder.setAccuracy (b : SearchBuilder) (accuracy : Accuracy) : SearchBuilder :=
  { b with accuracy := some accuracy }

/-- The `SearchBuilder::granularity` setter. -/
def SearchBuilder.setGranularity (b : SearchBuilder) (granularity : PlaceType) : SearchBuilder :=
  { b with granularity := some granularity }

/-- The `SearchBuilder::max_results` setter. -/
def SearchBuilder.setMaxResults (b : SearchBuilder) (max_results : Nat) : SearchBuilder :=
  { b with max_results := some max_results }

/-- The `SearchBuilder::contained_within` setter. -/
def SearchBuilder.setContainedWithin (b : SearchBuilder) (contained_id : String) : SearchBuilder :=
  { b with contained_within := some contained_id }

/-- Model of `HashMap::insert` on the association-list representation:
    replace the entry with the given key if one exists, otherwise add one. -/
def hmInsert : List (String × String) → String → String → List (String × String)
  | [], k, v => [(k, v)]
  | (k0, v0) :: rest, k, v =>
    if k0 = k then (k, v) :: rest else (k0, v0) :: hmInsert rest k v

/-- The `SearchBuilder::attribute` setter: inserts into the attribute map,
    starting from the empty map when none was set yet. -/
def SearchBuilder.addAttribute (b : SearchBuilder) (attribute_key attribute_value : String) :
    SearchBuilder :=
  { b with attributes := some (hmInsert (b.attributes.getD []) attribute_key attribute_value) }

/-- The parameter assembly performed by `SearchBuilder::call`: the
    query-specific parameter, the four optional scalar parameters, then one
    `attribute:<key>` parameter per attribute entry. -/
def SearchBuilder.callParams (b : SearchBuilder) : ParamList :=
  let p := match b.query with
    | .LatLon lat long => addParam (addParam [] "lat" (F64.display lat)) "long" (F64.display long)
    | .Query text => addParam [] "query" text
    | .IPAddress text => addParam [] "ip" text
  let p := addOptParam p "accuracy" (Option.map Accuracy.display b.accuracy)
  let p := addOptParam p "granularity" (Option.map PlaceType.display b.granularity)
  let p := addOptParam p "max_results" (Option.map Nat.repr b.max_results)
  let p := addOptParam p "contained_within" b.contained_within
  match b.attributes with
  | none => p
  | some attrs => attrs.foldl (fun ps kv => addParam ps ("attribute:" ++ kv.1) kv.2) p

/-- Element lookup used by `arr.get(0)` in the bounding-box decoder. -/
def parsePair : Json → Option (F64 × F64)
  | Json.arr [Json.num a, Json.num b] => some (a, b)
  | _ => none

/-- Serde deserialization of `Vec<(f64, f64)>` from a JSON value: an array
    whose elements are each a two-element array of numbers, in order. -/
def parsePairs : Json → Option (List (F64 × F64))
  | Json.arr elems => elems.mapM parsePair
  | _ => none

namespace serde_bounding_box

/-- The `serde_bounding_box::deserialize` adapter: `null` decodes to the
    empty sequence; otherwise read `coordinates`, take element 0, and parse
    it as a sequence of number pairs, failing with a decode error when the
    path is missing or the element is not such a sequence. -/
def deserializeBB (s : Json) : Except String (List (F64 × F64)) :=
  if s.isNull then Except.ok []
  else
    match (s.getField "coordinates").bind (fun arr => arr.getIdx 0) with
    | none => Except.error "Malformed 'bounding_box' attribute"
    | some inner =>
      match parsePairs inner with
      | some ps => Except.ok ps
      | none => Except.error "invalid type for bounding box coordinates"

/-- JSON form of one coordinate pair, as serde serializes an `(f64, f64)`. -/
def pairToJson (p : F64 × F64) : Json := Json.arr [Json.num p.1, Json.num p.2]

/-- The `serde_bounding_box::serialize` adapter: the empty sequence becomes
    `null`; otherwise an object with the pair sequence under `coordinates`
    (no extra nesting) and a `type` tag of `Point` for a single pair and
    `Polygon` otherwise, in the `SerBox` field order. -/
def serializeBB : List (F64 × F64) → Json
  | [] => Json.null
  | p :: rest =>
    Json.obj
      [("coordinates", Json.arr ((p :: rest).map pairToJson)),
       ("type", Json.str (if (p :: rest).length = 1 then "Point" else "Polygon"))]

end serde_bounding_box

/-- The `Place` record.  The `attributes` map is modelled as the association
    list of the JSON object's members; `contained_within` is the recursive
    optional list of enclosing places. -/
inductive Place where
  | mk (id : String) (attributes : List (String × String))
       (bounding_box : List (F64 × F64))
       (country : String) (country_code : String)
       (full_name : String) (name : String)
       (place_type : PlaceType)
       (contained_within : Option (List Place))

/-- Serde deserialization of a JSON string field. -/
def getStr : Json → Option String
  | Json.str s => some s
  | _ => none

/-- Serde deserialization of `HashMap<String, String>`: a JSON object whose
    member values are all strings. -/
def getStrMap : Json → Option (List (String × String))
  | Json.obj fields => fields.mapM (fun kv => (getStr kv.2).map (fun v => (kv.1, v)))
  | _ => none

/-- Non-recursive part of the derived `Place` deserializer: given the member
    list and the already-decoded `contained_within` field, check and extract
    the remaining eight fields (each required; `bounding_box` goes through
    the `serde_bounding_box` adapter; unknown members are ignored). -/
def decodePlaceFields (l : List (String × Json)) (cw : Option (List Place)) : Option Place :=
  (lookupField l "id").bind fun idv =>
  (getStr idv).bind fun id =>
  (lookupField l "attributes").bind fun attrv =>
  (getStrMap attrv).bind fun attributes =>
  (lookupField l "bounding_box").bind fun bbv =>
  (serde_bounding_box.deserializeBB bbv).toOption.bind fun bounding_box =>
  (lookupField l "country").bind fun cv =>
  (getStr cv).bind fun country =>
  (lookupField l "country_code").bind fun ccv =>
  (getStr ccv).bind fun country_code =>
  (lookupField l "full_name").bind fun fnv =>
  (getStr fnv).bind fun full_name =>
  (lookupField l "name").bind fun nv =>
  (getStr nv).bind fun name =>
  (lookupField l "place_type").bind fun ptv =>
  (PlaceType.fromJson ptv).map fun place_type =>
  Place.mk id attributes bounding_box country country_code full_name name place_type cw

/-- Non-recursive part of the derived `Place` deserializer's sequence
    visitor: given the first eight elements of a nine-element JSON array and
    the already-decoded ninth (`contained_within`), decode the fields in
    declaration order. -/
def decodePlaceSeqFields (idv attrv bbv cv ccv fnv nv ptv : Json)
    (cw : Option (List Place)) : Option Place :=
  (getStr idv).bind fun id =>
  (getStrMap attrv).bind fun attributes =>
  (serde_bounding_box.deserializeBB bbv).toOption.bind fun bounding_box =>
  (getStr cv).bind fun country =>
  (getStr ccv).bind fun country_code =>
  (getStr fnv).bind fun full_name =>
  (getStr nv).bind fun name =>
  (PlaceType.fromJson ptv).map fun place_type =>
  Place.mk id attributes bounding_box country country_code full_name name place_type cw

/-- Size bound for values found by object-member lookup, used for the
    termination of the recursive `Place` decoder. -/
theorem sizeOf_lookupField (l : List (String × Json)) (key : String) (v : Json)
    (h : lookupField l key = some v) : sizeOf v < sizeOf l := by
  induction l with
  | nil => simp [lookupField] at h
  | cons p rest ih =>
    obtain ⟨k0, v0⟩ := p
    simp only [lookupField] at h
    split at h
    · cases h
      simp
      omega
    · have := ih h
      simp
      omega

mutual

/-- The derived `Place` deserializer.  An object input decodes by member
    name: a missing or `null` `contained_within` member yields `none`, an
    array member is decoded recursively, any other member value is a decode
    error (the remaining fields are decoded by `decodePlaceFields`; field
    order does not affect which inputs decode or to what value).  A
    nine-element array input decodes through the derived sequence visitor
    (`serde_json` feeds `Value::Array` to `visit_seq`), reading the fields
    in declaration order with `contained_within` last; arrays of any other
    length and every remaining JSON value are decode errors. -/
def Place.deserialize : Json → Option Place
  | Json.obj l =>
    match h : lookupField l "contained_within" with
    | some (Json.arr elems) =>
      match decodePlaceList elems with
      | some cw => decodePlaceFields l (some cw)
      | none => none
    | some Json.null => decodePlaceFields l none
    | some _ => none
    | none => decodePlaceFields l none
  | Json.arr [idv, attrv, bbv, cv, ccv, fnv, nv, ptv, cwv] =>
    match cwv with
    | Json.null => decodePlaceSeqFields idv attrv bbv cv ccv fnv nv ptv none
    | Json.arr elems =>
      match decodePlaceList elems with
      | some cw => decodePlaceSeqFields idv attrv bbv cv ccv fnv nv ptv (some cw)
      | none => none
    | _ => none
  | _ => none

termination_by j => sizeOf j
decreasing_by
  all_goals simp_wf
  · have := sizeOf_lookupField l "contained_within" (Json.arr elems) h
    simp at this
    omega
  · omega

/-- Element-wise decoding of a JSON array of places, as `Vec<Place>`. -/
def decodePlaceList : List Json → Option (List Place)
  | [] => some []
  | x :: rest =>
    match Place.deserialize x, decodePlaceList rest with
    | some p, some ps => some (p :: ps)
    | _, _ => none
termination_by l => sizeOf l
decreasing_by
  all_goals simp_wf
  all_goals omega

end

/-- The `SearchResult` payload: the echoed request URL and the place list. -/
structure SearchResult where
  url : String
  results : List Place

/-- Serde deserialization of `Vec<Place>` from a JSON value: the value must
    be an array and every element must decode as a `Place`. -/
def decodePlacesValue : Json → Option (List Place)
  | Json.arr elems => decodePlaceList elems
  | _ => none

/-- The custom `SearchResult::deserialize`: walk `query.url`, capturing its
    raw JSON stringification as the `url`, and `result.places`, decoded as a
    place list; either path missing, or the places value failing to decode,
    is the single error `Malformed search result`. -/
def SearchResult.deserialize (raw : Json) : Except String SearchResult :=
  match (raw.getField "query").bind (fun obj => obj.getField "url") with
  | none => Except.error "Malformed search result"
  | some uv =>
    match ((raw.getField "result").bind (fun obj => obj.getField "places")).bind
        decodePlacesValue with
    | none => Except.error "Malformed search result"
    | some results => Except.ok ⟨Json.render uv, results⟩

/-- C5: for every `PlaceType` variant, decoding the encoded wire tag yields
    the variant back, and the parameter string (the `Display` implementation,
    which serializes to JSON and strips the quote marks) equals the bare wire
    tag. -/
theorem placeType_roundtrip_display (p : PlaceType) :
    PlaceType.fromJson (PlaceType.toJson p) = some p ∧
    PlaceType.display p = PlaceType.tag p := by
  cases p <;> exact ⟨by decide, by decide⟩

/-- Round trip of the pair encoding: a serialized pair sequence parses back
    verbatim, so the encoder's `coordinates` member holds the sequence with
    no extra nesting level. -/
theorem parsePairs_map_pairToJson (s : List (F64 × F64)) :
    parsePairs (Json.arr (s.map serde_bounding_box.pairToJson)) = some s := by
  induction s with
  | nil => rfl
  | cons p rest ih =>
    simp only [parsePairs] at ih ⊢
    simp only [List.map_cons, List.mapM_cons, ih]
    rfl

/-- C4: the bounding-box encoder maps the empty sequence to `null` and a
    non-empty sequence to an object whose `coordinates` member holds the
    sequence directly (it parses back verbatim, with no extra array nesting)
    and whose `type` member is `Point` for a single pair and `Polygon`
    otherwise. -/
theorem bounding_box_encode_spec (p : F64 × F64) (rest : List (F64 × F64)) :
    serde_bounding_box.serializeBB [] = Json.null ∧
    serde_bounding_box.serializeBB (p :: rest) =
      Json.obj
        [("coordinates", Json.arr ((p :: rest).map serde_bounding_box.pairToJson)),
         ("type", Json.str (if (p :: rest).length = 1 then "Point" else "Polygon"))] ∧
    (serde_bounding_box.serializeBB (p :: rest)).getField "coordinates" =
      some (Json.arr ((p :: rest).map serde_bounding_box.pairToJson)) ∧
    (serde_bounding_box.serializeBB (p :: rest)).getField "type" =
      some (Json.str (if (p :: rest).length = 1 then "Point" else "Polygon")) ∧
    parsePairs (Json.arr ((p :: rest).map serde_bounding_box.pairToJson)) = some (p :: rest) := by
  refine ⟨rfl, rfl, ?_, ?_, parsePairs_map_pairToJson (p :: rest)⟩ <;>
    simp [serde_bounding_box.serializeBB, Json.getField, lookupField]

/-- The geocode clamp value: `0` and everything above `20` become `20`, the
    rest pass through as their decimal rendering. -/
theorem clamp_value (n : Nat) :
    Nat.repr (if n = 0 ∨ 20 < n then 20 else n) =
      if 1 ≤ n ∧ n ≤ 20 then Nat.repr n else "20" := by
  by_cases h : 1 ≤ n ∧ n ≤ 20
  · have h' : ¬(n = 0 ∨ 20 < n) := by omega
    simp [h, h']
  · have h' : n = 0 ∨ 20 < n := by omega
    simp [h, h']
    rfl

/-- C2: a geocode builder with `max_results(n)` set emits a `max_results`
    parameter whose value is the decimal string of `n` for `1 ≤ n ≤ 20` and
    `20` for `n = 0` or `n > 20`; with `max_results` never called, no
    `max_results` parameter is emitted. -/
theorem geocode_max_results_clamp (b : GeocodeBuilder) (n : Nat) :
    lookupParam "max_results" (GeocodeBuilder.callParams (b.setMaxResults n)) =
      some (if 1 ≤ n ∧ n ≤ 20 then Nat.repr n else "20") ∧
    (b.max_results = none →
      lookupParam "max_results" (GeocodeBuilder.callParams b) = none) := by
  obtain ⟨c, acc, gran, mr⟩ := b
  constructor
  · cases acc <;> cases gran <;>
      simp [GeocodeBuilder.setMaxResults, GeocodeBuilder.callParams, addParam, addOptParam,
        lookupParam, clamp_value]
  · intro hmr
    cases mr with
    | some k => simp at hmr
    | none =>
      cases acc <;> cases gran <;>
        simp [GeocodeBuilder.callParams, addParam, addOptParam, lookupParam]

/-- Concrete zero value for coordinates in witnesses. -/
def f64zero : F64 := F64.finite ⟨false, ⟨0, []⟩, none⟩

/-- Witness for C2 at the spec's own scenario: `max_results(0)` and
    `max_results(50)` both emit `max_results=20`, and a fresh builder emits
    none. -/
theorem geocode_max_results_clamp_witness :
    lookupParam "max_results"
        (GeocodeBuilder.callParams ((GeocodeBuilder.new f64zero f64zero).setMaxResults 50)) =
      some "20" ∧
    lookupParam "max_results"
        (GeocodeBuilder.callParams ((GeocodeBuilder.new f64zero f64zero).setMaxResults 0)) =
      some "20" ∧
    lookupParam "max_results" (GeocodeBuilder.callParams (GeocodeBuilder.new f64zero f64zero)) =
      none := by
  refine ⟨?_, ?_, ?_⟩
  · have h := (geocode_max_results_clamp (GeocodeBuilder.new f64zero f64zero) 50).1
    norm_num at h
    exact h
  · have h := (geocode_max_results_clamp (GeocodeBuilder.new f64zero f64zero) 0).1
    norm_num at h
    exact h
  · exact (geocode_max_results_clamp (GeocodeBuilder.new f64zero f64zero) 0).2 rfl

/-- C9: every optional setter on the two builders sets exactly its named
    field and leaves every other field unchanged; hence any two distinct
    setters commute, and the assembled parameter list is a function of the
    resulting configuration alone (shown on the commuted assemblies). -/
theorem builder_setters_frame_commute (g : GeocodeBuilder) (s : SearchBuilder)
    (a : Accuracy) (pt : PlaceType) (n : Nat) (cw : String) :
    ((g.setAccuracy a).coordinate = g.coordinate ∧
     (g.setAccuracy a).accuracy = some a ∧
     (g.setAccuracy a).granularity = g.granularity ∧
     (g.setAccuracy a).max_results = g.max_results) ∧
    ((g.setGranularity pt).coordinate = g.coordinate ∧
     (g.setGranularity pt).accuracy = g.accuracy ∧
     (g.setGranularity pt).granularity = some pt ∧
     (g.setGranularity pt).max_results = g.max_results) ∧
    ((g.setMaxResults n).coordinate = g.coordinate ∧
     (g.setMaxResults n).accuracy = g.accuracy ∧
     (g.setMaxResults n).granularity = g.granularity ∧
     (g.setMaxResults n).max_results = some n) ∧
    ((g.setAccuracy a).setGranularity pt = (g.setGranularity pt).setAccuracy a ∧
     (g.setAccuracy a).setMaxResults n = (g.setMaxResults n).setAccuracy a ∧
     (g.setGranularity pt).setMaxResults n = (g.setMaxResults n).setGranularity pt) ∧
    ((s.setAccuracy a).query = s.query ∧
     (s.setAccuracy a).accuracy = some a ∧
     (s.setAccuracy a).granularity = s.granularity ∧
     (s.setAccuracy a).max_results = s.max_results ∧
     (s.setAccuracy a).contained_within = s.contained_within ∧
     (s.setAccuracy a).attributes = s.attributes) ∧
    ((s.setGranularity pt).query = s.query ∧
     (s.setGranularity pt).accuracy = s.accuracy ∧
     (s.setGranularity pt).granularity = some pt ∧
     (s.setGranularity pt).max_results = s.max_results ∧
     (s.setGranularity pt).contained_within = s.contained_within ∧
     (s.setGranularity pt).attributes = s.attributes) ∧
    ((s.setMaxResults n).query = s.query ∧
     (s.setMaxResults n).accuracy = s.accuracy ∧
     (s.setMaxResults n).granularity = s.granularity ∧
     (s.setMaxResults n).max_results = some n ∧
     (s.setMaxResults n).contained_within = s.contained_within ∧
     (s.setMaxResults n).attributes = s.attributes) ∧
    ((s.setContainedWithin cw).query = s.query ∧
     (s.setContainedWithin cw).accuracy = s.accuracy ∧
     (s.setContainedWithin cw).granularity = s.granularity ∧
     (s.setContainedWithin cw).max_results = s.max_results ∧
     (s.setContainedWithin cw).contained_within = some cw ∧
     (s.setContainedWithin cw).attributes = s.attributes) ∧
    ((s.setAccuracy a).setGranularity pt = (s.setGranularity pt).setAccuracy a ∧
     (s.setAccuracy a).setMaxResults n = (s.setMaxResults n).setAccuracy a ∧
     (s.setAccuracy a).setContainedWithin cw = (s.setContainedWithin cw).setAccuracy a ∧
     (s.setGranularity pt).setMaxResults n = (s.setMaxResults n).setGranularity pt ∧
     (s.setGranularity pt).setContainedWithin cw = (s.setContainedWithin cw).setGranularity pt ∧
     (s.setMaxResults n).setContainedWithin cw = (s.setContainedWithin cw).setMaxResults n) ∧
    (GeocodeBuilder.callParams ((g.setAccuracy a).setGranularity pt) =
       GeocodeBuilder.callParams ((g.setGranularity pt).setAccuracy a) ∧
     SearchBuilder.callParams ((s.setAccuracy a).setMaxResults n) =
       SearchBuilder.callParams ((s.setMaxResults n).setAccuracy a)) := by
  cases g
  cases s
  repeat' apply And.intro
  all_goals rfl

/-- Digit characters really are digits. -/
theorem digitChar_isDigit (d : Fin 10) : (digitChar d).isDigit = true := by
  revert d
  decide

/-- Digit characters are not sign characters. -/
theorem digitChar_ne_sign (d : Fin 10) : ¬(digitChar d = '+' ∨ digitChar d = '-') := by
  revert d
  decide

/-- Every character in a rendered digit run is a digit. -/
theorem DecDigits.chars_digits (d : DecDigits) : ∀ c ∈ d.chars, c.isDigit = true := by
  intro c hc
  simp only [DecDigits.chars, List.mem_cons, List.mem_map] at hc
  rcases hc with h | ⟨x, _, h⟩
  · rw [h]
    exact digitChar_isDigit _
  · rw [← h]
    exact digitChar_isDigit _

/-- Splitting a run of digits followed by a non-digit boundary. -/
theorem takeWhile_digits (ds rest : List Char)
    (h2 : ∀ c, rest.head? = some c → c.isDigit = false)
    (h1 : ∀ c ∈ ds, c.isDigit = true) :
    (ds ++ rest).takeWhile Char.isDigit = ds ∧
    (ds ++ rest).dropWhile Char.isDigit = rest := by
  induction ds with
  | nil =>
    cases rest with
    | nil => exact ⟨rfl, rfl⟩
    | cons c cs =>
      have hnd := h2 c rfl
      constructor <;> simp [List.takeWhile_cons, List.dropWhile_cons, hnd]
  | cons c cs ih =>
    have hc := h1 c (by simp)
    have ih' := ih (fun x hx => h1 x (by simp [hx]))
    constructor <;> simp [List.takeWhile_cons, List.dropWhile_cons, hc, ih'.1, ih'.2]

/-- The rendering of a finite double, followed by nothing or by `ft`, always
    matches the spec's accuracy regular expression. -/
theorem accuracyRegexChars_render (r : DecRepr) (tail : List Char)
    (ht : tail = [] ∨ tail = ['f', 't']) :
    accuracyRegexChars (r.chars ++ tail) = true := by
  have htail_head : ∀ c, tail.head? = some c → c.isDigit = false := by
    rcases ht with h | h <;> subst h <;> intro c hc
    · simp at hc
    · simp at hc
      subst hc
      decide
  -- unfold the matcher on the stripped character list
  have core : ∀ fracTail : List Char,
      (∀ c, fracTail.head? = some c → c.isDigit = false) →
      (fracTail = tail ∨ ∃ f : DecDigits, fracTail = '.' :: (f.chars ++ tail)) →
      (accuracyRegexChars (r.intPart.chars ++ fracTail) = true) := by
    intro fracTail hhead hcases
    obtain ⟨tw, dw⟩ := takeWhile_digits r.intPart.chars fracTail hhead r.intPart.chars_digits
    have hstrip : stripSign (r.intPart.chars ++ fracTail) = r.intPart.chars ++ fracTail := by
      simp only [DecDigits.chars, List.cons_append, stripSign]
      rw [if_neg (digitChar_ne_sign r.intPart.first)]
    simp only [accuracyRegexChars, hstrip, tw, dw]
    rw [if_neg (by simp [DecDigits.chars])]
    rcases hcases with h | ⟨f, h⟩
    · subst h
      rcases ht with h | h <;> subst h <;> simp
    · subst h
      obtain ⟨tw2, dw2⟩ := takeWhile_digits f.chars tail htail_head f.chars_digits
      simp only [tw2, dw2]
      rw [if_neg (by simp [DecDigits.chars])]
      rcases ht with h | h <;> subst h <;> simp
  have hfrac_head : ∀ c,
      ((match r.fracPart with | none => [] | some f => '.' :: f.chars) ++ tail).head? = some c →
      c.isDigit = false := by
    cases hf : r.fracPart with
    | none => simpa using htail_head
    | some f =>
      intro c hc
      simp at hc
      subst hc
      decide
  have hcs : (match r.fracPart with | none => [] | some f => '.' :: f.chars) ++ tail = tail ∨
      ∃ f : DecDigits,
        (match r.fracPart with | none => [] | some f => '.' :: f.chars) ++ tail =
          '.' :: (f.chars ++ tail) := by
    cases r.fracPart with
    | none => left; rfl
    | some f => right; exact ⟨f, rfl⟩
  have main := core _ hfrac_head hcs
  -- now relate the full rendering (with its optional sign) to the stripped form
  cases hneg : r.neg with
  | false =>
    have : r.chars ++ tail =
        r.intPart.chars ++ ((match r.fracPart with | none => [] | some f => '.' :: f.chars) ++ tail) := by
      simp [DecRepr.chars, hneg, List.append_assoc]
    rw [this]
    exact main
  | true =>
    have : r.chars ++ tail =
        '-' :: (r.intPart.chars ++
          ((match r.fracPart with | none => [] | some f => '.' :: f.chars) ++ tail)) := by
      simp [DecRepr.chars, hneg, List.append_assoc]
    rw [this]
    have hstrip : stripSign ('-' :: (r.intPart.chars ++
        ((match r.fracPart with | none => [] | some f => '.' :: f.chars) ++ tail))) =
        r.intPart.chars ++ ((match r.fracPart with | none => [] | some f => '.' :: f.chars) ++ tail) := by
      simp [stripSign]
    have hstrip2 : stripSign (r.intPart.chars ++
        ((match r.fracPart with | none => [] | some f => '.' :: f.chars) ++ tail)) =
        r.intPart.chars ++ ((match r.fracPart with | none => [] | some f => '.' :: f.chars) ++ tail) := by
      simp only [DecDigits.chars, List.cons_append, stripSign]
      rw [if_neg (digitChar_ne_sign r.intPart.first)]
    simp only [accuracyRegexChars, hstrip] at main ⊢
    rw [hstrip2] at main
    exact main

/-- C6 counterexample: `Accuracy::Meters(f64::NAN)` is an `Accuracy` value,
    its parameter string is `NaN` (Rust's `Display` output for an NaN
    double), and `NaN` does not match `[+-]?\d+(\.\d+)?(ft)?`, so the claim's
    universal regex statement fails on this input. -/
theorem accuracy_regex_claim_false :
    Accuracy.display (Accuracy.Meters F64.nan) = "NaN" ∧
    accuracyRegexMatch (Accuracy.display (Accuracy.Meters F64.nan)) = false := by
  exact ⟨rfl, by decide⟩

/-- C6 amended: for every `Accuracy` value, the parameter string is the
    `Display` of the contained double for `Meters` and that string suffixed
    with `ft` for `Feet`; whenever the contained double is finite, the
    parameter string matches `[+-]?\d+(\.\d+)?(ft)?`. -/
theorem accuracy_display_matches_regex (x : F64) (r : DecRepr) :
    Accuracy.display (Accuracy.Meters x) = F64.display x ∧
    Accuracy.display (Accuracy.Feet x) = F64.display x ++ "ft" ∧
    accuracyRegexMatch (Accuracy.display (Accuracy.Meters (F64.finite r))) = true ∧
    accuracyRegexMatch (Accuracy.display (Accuracy.Feet (F64.finite r))) = true := by
  refine ⟨rfl, rfl, ?_, ?_⟩
  · have h := accuracyRegexChars_render r [] (Or.inl rfl)
    simpa [accuracyRegexMatch, Accuracy.display, F64.display] using h
  · have h := accuracyRegexChars_render r ['f', 't'] (Or.inr rfl)
    have hdata : (Accuracy.display (Accuracy.Feet (F64.finite r))).data = r.chars ++ ['f', 't'] := by
      show (F64.display (F64.finite r) ++ "ft").data = r.chars ++ ['f', 't']
      rfl
    simpa [accuracyRegexMatch, hdata] using h

/-- C3: the bounding-box decoder maps `null` to the empty sequence; on any
    other value it reads `coordinates`, takes element 0 and parses it as an
    ordered pair sequence, returned verbatim; a missing path is the decode
    error `Malformed 'bounding_box' attribute`, and a present element that is
    not a pair sequence is also a decode error. -/
theorem bounding_box_decode_spec (j inner : Json) (ps : List (F64 × F64)) :
    serde_bounding_box.deserializeBB Json.null = Except.ok [] ∧
    (j.isNull = false →
      ((j.getField "coordinates").bind (fun arr => arr.getIdx 0) = none →
        serde_bounding_box.deserializeBB j = Except.error "Malformed 'bounding_box' attribute") ∧
      ((j.getField "coordinates").bind (fun arr => arr.getIdx 0) = some inner →
        (parsePairs inner = some ps → serde_bounding_box.deserializeBB j = Except.ok ps) ∧
        (parsePairs inner = none →
          ∃ e, serde_bounding_box.deserializeBB j = Except.error e))) := by
  refine ⟨rfl, fun hnull => ⟨fun hnone => ?_, fun hsome => ⟨fun hps => ?_, fun hpn => ?_⟩⟩⟩
  · simp [serde_bounding_box.deserializeBB, hnull, hnone]
  · simp [serde_bounding_box.deserializeBB, hnull, hsome, hps]
  · refine ⟨"invalid type for bounding box coordinates", ?_⟩
    simp [serde_bounding_box.deserializeBB, hnull, hsome, hpn]

/-- Concrete coordinate doubles for the witnesses, rendering as `-122.4`,
    `37.7`, `-122.3` and `37.8`. -/
def fprNeg1224 : F64 := F64.finite ⟨true, ⟨1, [2, 2]⟩, some ⟨4, []⟩⟩

/-- Concrete coordinate double rendering as `37.7`. -/
def fpr377 : F64 := F64.finite ⟨false, ⟨3, [7]⟩, some ⟨7, []⟩⟩

/-- Witness for C3 at the spec's bounding-box scenario: a `Polygon` object
    whose first ring is a pair list decodes to that list in order, and `null`
    decodes to the empty sequence. -/
theorem bounding_box_decode_spec_witness :
    serde_bounding_box.deserializeBB
        (Json.obj
          [("type", Json.str "Polygon"),
           ("coordinates",
            Json.arr
              [Json.arr
                [Json.arr [Json.num fprNeg1224, Json.num fpr377],
                 Json.arr [Json.num fpr377, Json.num fprNeg1224]]])]) =
      Except.ok [(fprNeg1224, fpr377), (fpr377, fprNeg1224)] ∧
    serde_bounding_box.deserializeBB Json.null = Except.ok [] := by
  constructor
  · exact
      (((bounding_box_decode_spec
            (Json.obj
              [("type", Json.str "Polygon"),
               ("coordinates",
                Json.arr
                  [Json.arr
                    [Json.arr [Json.num fprNeg1224, Json.num fpr377],
                     Json.arr [Json.num fpr377, Json.num fprNeg1224]]])])
            (Json.arr
              [Json.arr [Json.num fprNeg1224, Json.num fpr377],
               Json.arr [Json.num fpr377, Json.num fprNeg1224]])
            [(fprNeg1224, fpr377), (fpr377, fprNeg1224)]).2 rfl).2 rfl).1 rfl
  · exact (bounding_box_decode_spec Json.null Json.null []).1

/-- C10: the bounding-box decoder never reads the `type` member: for every
    object whose `coordinates` member has a first element parsing as a pair
    sequence, decoding succeeds with exactly those pairs, whatever members
    besides `coordinates` the object carries. -/
theorem bounding_box_type_ignored (l : List (String × Json)) (inner inner0 : Json)
    (ps : List (F64 × F64))
    (h1 : lookupField l "coordinates" = some inner)
    (h2 : inner.getIdx 0 = some inner0)
    (h3 : parsePairs inner0 = some ps) :
    serde_bounding_box.deserializeBB (Json.obj l) = Except.ok ps := by
  simp [serde_bounding_box.deserializeBB, Json.isNull, Json.getField, h1, h2, h3]

/-- Witness for C10: an object tagged `type: Polygon` whose only ring is a
    single point still decodes successfully, to that one pair. -/
theorem bounding_box_type_ignored_witness :
    serde_bounding_box.deserializeBB
        (Json.obj
          [("coordinates", Json.arr [Json.arr [Json.arr [Json.num fpr377, Json.num fprNeg1224]]]),
           ("type", Json.str "Polygon")]) =
      Except.ok [(fpr377, fprNeg1224)] := by
  exact
    bounding_box_type_ignored
      [("coordinates", Json.arr [Json.arr [Json.arr [Json.num fpr377, Json.num fprNeg1224]]]),
       ("type", Json.str "Polygon")]
      (Json.arr [Json.arr [Json.arr [Json.num fpr377, Json.num fprNeg1224]]])
      (Json.arr [Json.arr [Json.num fpr377, Json.num fprNeg1224]])
      [(fpr377, fprNeg1224)] rfl rfl rfl

/-- Characters of a string concatenation. -/
theorem string_data_append (a b : String) : (a ++ b).data = a.data ++ b.data := by
  cases a
  cases b
  rfl

/-- A parameter name carrying the `attribute:` marker never equals a name
    whose first ten characters differ from the marker. -/
theorem attrKey_ne (k s : String) (h : s.data.take 10 ≠ "attribute:".data) :
    ("attribute:" ++ k) ≠ s := by
  intro he
  apply h
  rw [← he, string_data_append]
  have h10 : ("attribute:".data).length = 10 := by decide
  rw [← h10, List.take_left]

/-- The `attribute:` marker is injective on the key. -/
theorem attrKey_inj (k1 k2 : String) : ("attribute:" ++ k1 = "attribute:" ++ k2) ↔ k1 = k2 := by
  constructor
  · intro h
    have hd := congrArg String.data h
    rw [string_data_append, string_data_append] at hd
    have hd2 := List.append_cancel_left hd
    cases k1
    cases k2
    exact congrArg String.mk hd2
  · intro h
    rw [h]

/-- Parameter lookup distributes over list append. -/
theorem lookupParam_append (key : String) (l1 l2 : ParamList) :
    lookupParam key (l1 ++ l2) =
      match lookupParam key l1 with
      | some v => some v
      | none => lookupParam key l2 := by
  induction l1 with
  | nil => rfl
  | cons p rest ih =>
    obtain ⟨k, v⟩ := p
    by_cases hk : k = key <;> simp [lookupParam, hk, ih]

/-- Parameter counting distributes over list append. -/
theorem countKey_append (key : String) (l1 l2 : ParamList) :
    countKey key (l1 ++ l2) = countKey key l1 + countKey key l2 := by
  simp [countKey, List.filter_append]

/-- The emitted parameters contributed by the attribute map. -/
def attrEntries : Option (List (String × String)) → ParamList
  | none => []
  | some attrs => attrs.map fun kv => ("attribute:" ++ kv.1, kv.2)

/-- The attribute emission loop appends one parameter per attribute entry. -/
theorem foldl_addParam (attrs : List (String × String)) (p : ParamList) :
    attrs.foldl (fun ps kv => addParam ps ("attribute:" ++ kv.1) kv.2) p =
      p ++ attrs.map fun kv => ("attribute:" ++ kv.1, kv.2) := by
  induction attrs generalizing p with
  | nil => simp
  | cons kv rest ih =>
    rw [List.foldl_cons, ih]
    simp [addParam]

/-- The search assembly is the scalar parameters followed by the attribute
    parameters. -/
theorem SearchBuilder.callParams_eq (b : SearchBuilder) :
    b.callParams = SearchBuilder.callParams { b with attributes := none } ++ attrEntries b.attributes := by
  obtain ⟨q, acc, gran, mr, cw, attrs⟩ := b
  cases attrs with
  | none => simp [SearchBuilder.callParams, attrEntries]
  | some l => simp [SearchBuilder.callParams, attrEntries, foldl_addParam]

/-- No fixed-name parameter is found among the attribute parameters. -/
theorem lookup_fixed_attrEntries (o : Option (List (String × String))) (key : String)
    (h : ∀ k, ("attribute:" ++ k) ≠ key) :
    lookupParam key (attrEntries o) = none := by
  cases o with
  | none => rfl
  | some l =>
    induction l with
    | nil => rfl
    | cons kv rest ih =>
      simp only [attrEntries] at ih
      simp [attrEntries, lookupParam, h kv.1, ih]

/-- Attribute-parameter lookup reduces to lookup in the attribute map. -/
theorem lookup_attrEntries (l : List (String × String)) (k : String) :
    lookupParam ("attribute:" ++ k) (attrEntries (some l)) = lookupParam k l := by
  induction l with
  | nil => rfl
  | cons kv rest ih =>
    by_cases hk : kv.1 = k
    · simp [attrEntries, lookupParam, hk]
    · have hne : ("attribute:" ++ kv.1) ≠ ("attribute:" ++ k) := by
        rw [Ne, attrKey_inj]
        exact hk
      simp only [attrEntries] at ih
      simp [attrEntries, lookupParam, hk, hne, ih]

/-- Attribute-parameter counting reduces to counting in the attribute map. -/
theorem count_attrEntries (l : List (String × String)) (k : String) :
    countKey ("attribute:" ++ k) (attrEntries (some l)) =
      (l.filter fun kv => kv.1 = k).length := by
  induction l with
  | nil => rfl
  | cons kv rest ih =>
    by_cases hk : kv.1 = k
    · simp only [attrEntries, List.map_cons] at ih ⊢
      simp [countKey, List.filter_cons, hk, attrKey_inj, ← ih, countKey]
    · have : ¬("attribute:" ++ kv.1 = "attribute:" ++ k) := by
        rw [attrKey_inj]
        exact hk
      simp only [attrEntries, List.map_cons] at ih ⊢
      simp [countKey, List.filter_cons, hk, this, ← ih, countKey]

/-- Inserting returns the inserted value on lookup. -/
theorem lookupParam_hmInsert (l : List (String × String)) (k v : String) :
    lookupParam k (hmInsert l k v) = some v := by
  induction l with
  | nil => simp [hmInsert, lookupParam]
  | cons kv rest ih =>
    obtain ⟨k0, v0⟩ := kv
    by_cases hk : k0 = k <;> simp [hmInsert, lookupParam, hk, ih]

/-- Inserting under a different key does not change a lookup. -/
theorem lookupParam_hmInsert_ne (l : List (String × String)) (k k2 v : String) (h : k ≠ k2) :
    lookupParam k (hmInsert l k2 v) = lookupParam k l := by
  induction l with
  | nil => simp [hmInsert, lookupParam, Ne.symm h]
  | cons kv rest ih =>
    obtain ⟨k0, v0⟩ := kv
    by_cases hk : k0 = k2
    · subst hk
      simp [hmInsert, lookupParam, Ne.symm h]
    · by_cases hk0 : k0 = k <;> simp [hmInsert, lookupParam, hk, hk0, h, ih]

/-- Keys present after an insert were present before or are the new key. -/
theorem mem_keys_hmInsert (l : List (String × String)) (k v x : String)
    (h : x ∈ (hmInsert l k v).map Prod.fst) : x ∈ l.map Prod.fst ∨ x = k := by
  induction l with
  | nil => simpa [hmInsert] using h
  | cons kv rest ih =>
    obtain ⟨k0, v0⟩ := kv
    by_cases hk : k0 = k
    · simp only [hmInsert, if_pos hk, List.map_cons, List.mem_cons] at h
      rcases h with h | h
      · right
        exact h
      · left
        simp only [List.map_cons, List.mem_cons]
        right
        exact h
    · simp only [hmInsert, if_neg hk, List.map_cons, List.mem_cons] at h
      rcases h with h | h
      · left
        simp only [List.map_cons, List.mem_cons]
        left
        exact h
      · rcases ih h with h' | h'
        · left
          simp only [List.map_cons, List.mem_cons]
          right
          exact h'
        · right
          exact h'

/-- Inserting preserves distinctness of the keys. -/
theorem hmInsert_keys_nodup (l : List (String × String)) (k v : String)
    (h : (l.map Prod.fst).Nodup) : ((hmInsert l k v).map Prod.fst).Nodup := by
  induction l with
  | nil => simp [hmInsert]
  | cons kv rest ih =>
    obtain ⟨k0, v0⟩ := kv
    simp only [List.map_cons, List.nodup_cons] at h
    by_cases hk : k0 = k
    · subst hk
      rw [show hmInsert ((k0, v0) :: rest) k0 v = (k0, v) :: rest from by simp [hmInsert]]
      simp only [List.map_cons, List.nodup_cons]
      exact h
    · simp only [hmInsert, if_neg hk, List.map_cons, List.nodup_cons]
      refine ⟨fun hx => ?_, ih h.2⟩
      rcases mem_keys_hmInsert rest k v k0 hx with h' | h'
      · exact h.1 h'
      · exact hk h'

/-- With distinct keys, the entry count of the inserted key is exactly one. -/
theorem filter_hmInsert_len (l : List (String × String)) (k v : String)
    (h : (l.map Prod.fst).Nodup) :
    ((hmInsert l k v).filter fun kv => kv.1 = k).length = 1 := by
  induction l with
  | nil => simp [hmInsert]
  | cons kv rest ih =>
    obtain ⟨k0, v0⟩ := kv
    simp only [List.map_cons, List.nodup_cons] at h
    by_cases hk : k0 = k
    · subst hk
      have hnil : rest.filter (fun kv => kv.1 = k0) = [] := by
        rw [List.filter_eq_nil_iff]
        intro a ha
        simp only [decide_eq_true_eq]
        intro hak
        apply h.1
        have hm : a.1 ∈ rest.map Prod.fst := List.mem_map_of_mem Prod.fst ha
        rwa [hak] at hm
      simp [hmInsert, List.filter_cons, hnil]
    · simp [hmInsert, List.filter_cons, hk, ih h.2]

/-- C8: a search builder with `max_results(n)` set emits the decimal string
    of `n` unchanged for every `n` (no clamping), and the query-specific
    parameters are exactly `lat` plus `long` for a coordinate query, `query`
    alone for a text query, and `ip` alone for an IP query. -/
theorem search_params_spec (b : SearchBuilder) (n : Nat) :
    lookupParam "max_results" (SearchBuilder.callParams (b.setMaxResults n)) =
      some (Nat.repr n) ∧
    (match b.query with
     | PlaceQuery.LatLon lat long =>
        lookupParam "lat" b.callParams = some (F64.display lat) ∧
        lookupParam "long" b.callParams = some (F64.display long) ∧
        lookupParam "query" b.callParams = none ∧
        lookupParam "ip" b.callParams = none
     | PlaceQuery.Query text =>
        lookupParam "query" b.callParams = some text ∧
        lookupParam "lat" b.callParams = none ∧
        lookupParam "long" b.callParams = none ∧
        lookupParam "ip" b.callParams = none
     | PlaceQuery.IPAddress text =>
        lookupParam "ip" b.callParams = some text ∧
        lookupParam "lat" b.callParams = none ∧
        lookupParam "long" b.callParams = none ∧
        lookupParam "query" b.callParams = none) := by
  have hmr : ∀ o, lookupParam "max_results" (attrEntries o) = none := fun o =>
    lookup_fixed_attrEntries o _ (fun k => attrKey_ne k _ (by decide))
  have hlat : ∀ o, lookupParam "lat" (attrEntries o) = none := fun o =>
    lookup_fixed_attrEntries o _ (fun k => attrKey_ne k _ (by decide))
  have hlong : ∀ o, lookupParam "long" (attrEntries o) = none := fun o =>
    lookup_fixed_attrEntries o _ (fun k => attrKey_ne k _ (by decide))
  have hquery : ∀ o, lookupParam "query" (attrEntries o) = none := fun o =>
    lookup_fixed_attrEntries o _ (fun k => attrKey_ne k _ (by decide))
  have hip : ∀ o, lookupParam "ip" (attrEntries o) = none := fun o =>
    lookup_fixed_attrEntries o _ (fun k => attrKey_ne k _ (by decide))
  obtain ⟨q, acc, gran, mr, cw, attrs⟩ := b
  constructor
  · simp only [SearchBuilder.setMaxResults]
    rw [SearchBuilder.callParams_eq]
    simp only [lookupParam_append]
    cases q <;> cases acc <;> cases gran <;> cases cw <;>
      simp [SearchBuilder.callParams, addParam, addOptParam, lookupParam, hmr]
  · rw [SearchBuilder.callParams_eq]
    simp only [lookupParam_append]
    cases q <;> cases acc <;> cases gran <;> cases mr <;> cases cw <;>
      simp [SearchBuilder.callParams, addParam, addOptParam, lookupParam,
        hlat, hlong, hquery, hip]

/-- Membership in the result of recording one parameter. -/
theorem mem_addParam (l : ParamList) (k v : String) (p : String × String)
    (h : p ∈ addParam l k v) : p ∈ l ∨ p = (k, v) := by
  simpa [addParam] using h

/-- Membership in the result of optionally recording one parameter. -/
theorem mem_addOptParam (l : ParamList) (k : String) (o : Option String) (p : String × String)
    (h : p ∈ addOptParam l k o) : p ∈ l ∨ p.1 = k := by
  cases o with
  | none => exact Or.inl h
  | some s =>
    rcases mem_addParam l k s p h with h' | h'
    · exact Or.inl h'
    · right
      rw [h']

/-- Every scalar parameter assembled by the search builder carries one of the
    eight fixed wire names. -/
theorem scalars_keys (b : SearchBuilder) :
    ∀ p ∈ SearchBuilder.callParams { b with attributes := none },
      p.1 ∈ (["lat", "long", "query", "ip", "accuracy", "granularity", "max_results",
        "contained_within"] : List String) := by
  obtain ⟨q, acc, gran, mr, cw, attrs⟩ := b
  intro p hp
  simp only [SearchBuilder.callParams] at hp
  rcases mem_addOptParam _ _ _ _ hp with hp | hk
  swap
  · simp [hk]
  rcases mem_addOptParam _ _ _ _ hp with hp | hk
  swap
  · simp [hk]
  rcases mem_addOptParam _ _ _ _ hp with hp | hk
  swap
  · simp [hk]
  rcases mem_addOptParam _ _ _ _ hp with hp | hk
  swap
  · simp [hk]
  cases q with
  | LatLon lat long =>
    rcases mem_addParam _ _ _ _ hp with hp | he
    · rcases mem_addParam _ _ _ _ hp with hp | he
      · simp at hp
      · simp [he]
    · simp [he]
  | Query text =>
    rcases mem_addParam _ _ _ _ hp with hp | he
    · simp at hp
    · simp [he]
  | IPAddress text =>
    rcases mem_addParam _ _ _ _ hp with hp | he
    · simp at hp
    · simp [he]

/-- Fixed wire names never equal an `attribute:`-marked name. -/
theorem fixed_ne_attrKey (s : String)
    (hs : s ∈ (["lat", "long", "query", "ip", "accuracy", "granularity", "max_results",
      "contained_within"] : List String)) (k : String) : s ≠ "attribute:" ++ k := by
  fin_cases hs <;> exact fun he => attrKey_ne k _ (by decide) he.symm

/-- Lookup misses a list none of whose entries carry the name. -/
theorem lookupParam_eq_none (key : String) (l : ParamList) (h : ∀ p ∈ l, p.1 ≠ key) :
    lookupParam key l = none := by
  induction l with
  | nil => rfl
  | cons p rest ih =>
    simp [lookupParam, h p (by simp)]
    exact ih fun x hx => h x (by simp [hx])

/-- Counting misses a list none of whose entries carry the name. -/
theorem countKey_eq_zero (key : String) (l : ParamList) (h : ∀ p ∈ l, p.1 ≠ key) :
    countKey key l = 0 := by
  simp only [countKey, List.length_eq_zero, List.filter_eq_nil_iff]
  intro a ha
  simp [h a ha]

/-- Counting an `attribute:`-marked name in the full assembly reduces to the
    attribute parameters. -/
theorem countKey_attrKey_callParams (b : SearchBuilder) (k : String) :
    countKey ("attribute:" ++ k) b.callParams =
      countKey ("attribute:" ++ k) (attrEntries b.attributes) := by
  rw [SearchBuilder.callParams_eq, countKey_append,
    countKey_eq_zero _ _ (fun p hp => fixed_ne_attrKey p.1 (scalars_keys b p hp) k)]
  omega

/-- Looking up an `attribute:`-marked name in the full assembly reduces to
    the attribute parameters. -/
theorem lookup_attrKey_callParams (b : SearchBuilder) (k : String) :
    lookupParam ("attribute:" ++ k) b.callParams =
      lookupParam ("attribute:" ++ k) (attrEntries b.attributes) := by
  rw [SearchBuilder.callParams_eq, lookupParam_append,
    lookupParam_eq_none _ _ (fun p hp => fixed_ne_attrKey p.1 (scalars_keys b p hp) k)]

/-- Distinctness of the attribute-map keys, an invariant of every builder
    reachable through the public constructors and setters. -/
def SearchBuilder.attrsNodup (b : SearchBuilder) : Prop :=
  match b.attributes with
  | none => True
  | some l => (l.map Prod.fst).Nodup

/-- C7: calling `attribute(k, v1)` then `attribute(k, v2)` on a search
    builder with distinct attribute keys emits exactly one `attribute:k`
    parameter, valued `v2` (later values overwrite earlier ones); calls with
    distinct keys accumulate, each key emitted with its own given value. -/
theorem search_attribute_accumulate (b : SearchBuilder) (h : b.attrsNodup)
    (k k2 v1 v2 u1 u2 : String) :
    (countKey ("attribute:" ++ k)
        (((b.addAttribute k v1).addAttribute k v2).callParams) = 1 ∧
     lookupParam ("attribute:" ++ k)
        (((b.addAttribute k v1).addAttribute k v2).callParams) = some v2) ∧
    (k ≠ k2 →
      lookupParam ("attribute:" ++ k)
          (((b.addAttribute k u1).addAttribute k2 u2).callParams) = some u1 ∧
      lookupParam ("attribute:" ++ k2)
          (((b.addAttribute k u1).addAttribute k2 u2).callParams) = some u2) := by
  obtain ⟨q, acc, gran, mr, cw, attrs⟩ := b
  have hl0 : ((attrs.getD ([] : List (String × String))).map Prod.fst).Nodup := by
    cases attrs with
    | none => simp
    | some l => simpa [SearchBuilder.attrsNodup] using h
  refine ⟨⟨?_, ?_⟩, fun hkk => ⟨?_, ?_⟩⟩
  · rw [countKey_attrKey_callParams]
    simp only [SearchBuilder.addAttribute, Option.getD_some]
    rw [count_attrEntries]
    exact filter_hmInsert_len _ _ _ (hmInsert_keys_nodup _ _ _ hl0)
  · rw [lookup_attrKey_callParams]
    simp only [SearchBuilder.addAttribute, Option.getD_some]
    rw [lookup_attrEntries]
    exact lookupParam_hmInsert _ _ _
  · rw [lookup_attrKey_callParams]
    simp only [SearchBuilder.addAttribute, Option.getD_some]
    rw [lookup_attrEntries, lookupParam_hmInsert_ne _ _ _ _ hkk]
    exact lookupParam_hmInsert _ _ _
  · rw [lookup_attrKey_callParams]
    simp only [SearchBuilder.addAttribute, Option.getD_some]
    rw [lookup_attrEntries]
    exact lookupParam_hmInsert _ _ _

/-- Witness for C7 at the spec's search scenario: overwriting and
    accumulating attribute parameters on a text query for Seattle. -/
theorem search_attribute_accumulate_witness :
    (countKey ("attribute:" ++ "street_address")
        ((((SearchBuilder.new (PlaceQuery.Query "Seattle")).addAttribute
            "street_address" "one").addAttribute "street_address" "123 Main").callParams) = 1 ∧
     lookupParam ("attribute:" ++ "street_address")
        ((((SearchBuilder.new (PlaceQuery.Query "Seattle")).addAttribute
            "street_address" "one").addAttribute "street_address" "123 Main").callParams) =
      some "123 Main") ∧
    (lookupParam ("attribute:" ++ "street_address")
        ((((SearchBuilder.new (PlaceQuery.Query "Seattle")).addAttribute
            "street_address" "a").addAttribute "locality" "b").callParams) = some "a" ∧
     lookupParam ("attribute:" ++ "locality")
        ((((SearchBuilder.new (PlaceQuery.Query "Seattle")).addAttribute
            "street_address" "a").addAttribute "locality" "b").callParams) = some "b") := by
  have h := search_attribute_accumulate (SearchBuilder.new (PlaceQuery.Query "Seattle"))
    trivial "street_address" "locality" "one" "123 Main" "a" "b"
  exact ⟨h.1, h.2 (by decide)⟩

/-- The JSON rendering of a string value begins and ends with a quote mark. -/
theorem jsonEscape_quotes (s : String) :
    (jsonEscape s).data.head? = some '"' ∧ (jsonEscape s).data.getLast? = some '"' := by
  have hd : (jsonEscape s).data =
      '"' :: ((String.join (s.data.map escapeChar)).data ++ ['"']) := by
    rw [jsonEscape, string_data_append, string_data_append]
    rfl
  rw [hd]
  refine ⟨rfl, ?_⟩
  rw [show '"' :: ((String.join (s.data.map escapeChar)).data ++ ['"']) =
      ('"' :: (String.join (s.data.map escapeChar)).data) ++ ['"'] from rfl]
  exact List.getLast?_concat _

/-- C1: decoding a `SearchResult` succeeds exactly when the input has a value
    at `query.url` and a place array decoding at `result.places`; on success
    the `url` is the raw JSON stringification of the `query.url` value — with
    its surrounding quote marks when that value is a JSON string — and on any
    missing path or non-decoding places value the single error is `Malformed
    search result`. -/
theorem searchResult_decode_spec (j uv : Json) (s : String) (r : SearchResult) :
    (∀ places, (j.getField "query").bind (fun o => o.getField "url") = some uv →
      ((j.getField "result").bind (fun o => o.getField "places")).bind decodePlacesValue =
        some places →
      SearchResult.deserialize j = Except.ok ⟨Json.render uv, places⟩) ∧
    ((j.getField "query").bind (fun o => o.getField "url") = none →
      SearchResult.deserialize j = Except.error "Malformed search result") ∧
    (((j.getField "result").bind (fun o => o.getField "places")).bind decodePlacesValue = none →
      SearchResult.deserialize j = Except.error "Malformed search result") ∧
    (∀ r', SearchResult.deserialize j = Except.ok r' →
      ∃ uv' places',
        (j.getField "query").bind (fun o => o.getField "url") = some uv' ∧
        ((j.getField "result").bind (fun o => o.getField "places")).bind decodePlacesValue =
          some places' ∧
        r' = ⟨Json.render uv', places'⟩) ∧
    ((j.getField "query").bind (fun o => o.getField "url") = some (Json.str s) →
      SearchResult.deserialize j = Except.ok r →
      r.url.data.head? = some '"' ∧ r.url.data.getLast? = some '"') := by
  refine ⟨?_, ?_, ?_, ?_, ?_⟩
  · intro places h1 h2
    simp [SearchResult.deserialize, h1, h2]
  · intro h1
    simp [SearchResult.deserialize, h1]
  · intro h2
    cases h1 : (j.getField "query").bind (fun o => o.getField "url") with
    | none => simp [SearchResult.deserialize, h1]
    | some uv' => simp [SearchResult.deserialize, h1, h2]
  · intro r' hr
    cases h1 : (j.getField "query").bind (fun o => o.getField "url") with
    | none => simp [SearchResult.deserialize, h1] at hr
    | some uv' =>
      cases h2 : ((j.getField "result").bind (fun o => o.getField "places")).bind
          decodePlacesValue with
      | none => simp [SearchResult.deserialize, h1, h2] at hr
      | some places' =>
        simp only [SearchResult.deserialize, h1, h2, Except.ok.injEq] at hr
        exact ⟨uv', places', rfl, rfl, hr.symm⟩
  · intro hs hr
    cases h2 : ((j.getField "result").bind (fun o => o.getField "places")).bind
        decodePlacesValue with
    | none => simp [SearchResult.deserialize, hs, h2] at hr
    | some places' =>
      simp only [SearchResult.deserialize, hs, h2, Except.ok.injEq] at hr
      rw [← hr]
      show (Json.render (Json.str s)).data.head? = some '"' ∧
        (Json.render (Json.str s)).data.getLast? = some '"'
      rw [show Json.render (Json.str s) = jsonEscape s from by simp [Json.render]]
      exact jsonEscape_quotes s

/-- Witness for C1 at the spec's envelope scenario: a well-formed envelope
    with an empty place array decodes to the quoted URL and the empty list,
    and an empty object (both paths missing) yields the single malformed
    error. -/
theorem searchResult_decode_spec_witness :
    SearchResult.deserialize
        (Json.obj
          [("query", Json.obj [("url", Json.str "x")]),
           ("result", Json.obj [("places", Json.arr [])])]) =
      Except.ok ⟨Json.render (Json.str "x"), []⟩ ∧
    SearchResult.deserialize (Json.obj []) = Except.error "Malformed search result" := by
  constructor
  · exact
      (searchResult_decode_spec
          (Json.obj
            [("query", Json.obj [("url", Json.str "x")]),
             ("result", Json.obj [("places", Json.arr [])])])
          (Json.str "x") "x" ⟨Json.render (Json.str "x"), []⟩).1 [] rfl
        (by simp [Json.getField, lookupField, decodePlacesValue, decodePlaceList])
  · exact
      (searchResult_decode_spec (Json.obj []) Json.null "" ⟨"", []⟩).2.1 rfl

/-- The distinct-keys invariant of the attribute map holds for a fresh
    builder and is preserved by every setter, so the hypothesis of the
    attribute-accumulation theorem covers every builder reachable through the
    public constructors. -/
theorem attrsNodup_reachable (q : PlaceQuery) (b : SearchBuilder) (h : b.attrsNodup)
    (a : Accuracy) (pt : PlaceType) (n : Nat) (cw k v : String) :
    (SearchBuilder.new q).attrsNodup ∧
    (b.setAccuracy a).attrsNodup ∧
    (b.setGranularity pt).attrsNodup ∧
    (b.setMaxResults n).attrsNodup ∧
    (b.setContainedWithin cw).attrsNodup ∧
    (b.addAttribute k v).attrsNodup := by
  obtain ⟨q0, acc, gran, mr, cw0, attrs⟩ := b
  refine ⟨trivial, h, h, h, h, ?_⟩
  show ((hmInsert (attrs.getD []) k v).map Prod.fst).Nodup
  apply hmInsert_keys_nodup
  cases attrs with
  | none => simp
  | some l => simpa [SearchBuilder.attrsNodup] using h
